import Mathlib

/-!
Verification of the FormEase field-detection, fusion and ordering core.

Shallow embedding of the Python sources in src/formease:
  models.py        -> FieldType, BBox, FormField
  field_detector.py -> classify_label, is_required, clean_label,
                       find_nearest_input_region, infer_answer_region
  field_ordering.py -> order_fields
  llm_extractor.py  -> merge_fields
  validators.py     -> validate_field

Pixel coordinates are modelled as Int; Python floor division (the // of
the sort key) is Int.fdiv, and the int() truncation of page_width * 0.8
is modelled as truncating division by 5 of 4 * page_width, which agrees
with the float computation for realistic page widths.  Confidences are
modelled as rationals (the code only compares them).  Regular
expressions are embedded by a small executable matcher covering exactly
the constructs the source patterns use (literals, character classes and
their negations, option, star over a class, alternation, word boundary,
end anchor); case-insensitive patterns are applied to the lowercased
text with lowercase literals.
-/

/-- Whitespace characters of a Python regex shorthand class (ASCII). -/
def wsChars : List Char := [' ', '\t', '\n', '\r', '\x0b', '\x0c']

/-- Python str.lower (ASCII model, character by character). -/
def pyLower (s : String) : String := ⟨s.data.map Char.toLower⟩

/-- Python str.upper (ASCII model, character by character). -/
def pyUpper (s : String) : String := ⟨s.data.map Char.toUpper⟩

/-- Single-character matcher: a character class or a negated class. -/
inductive CM where
  | cls (cs : List Char)
  | ncls (cs : List Char)
  deriving DecidableEq

def CM.mch : CM → Char → Bool
  | .cls cs, c => cs.contains c
  | .ncls cs, c => !(cs.contains c)

/-- Regular-expression abstract syntax, restricted to the constructs
appearing in the source patterns. -/
inductive RE where
  | eps
  | one (m : CM)
  | seq (a b : RE)
  | alt (a b : RE)
  | opt (a : RE)
  | starC (m : CM)
  | wordB
  | eol
  deriving DecidableEq

/-- Word character for the word-boundary assertion (ASCII model of a
Python regex word character). -/
def isWordChar (c : Char) : Bool := c.isAlphanum || c == '_'

/-- Is the character at index i (if any) a word character? -/
def atWord (s : List Char) (i : Nat) : Bool :=
  match s[i]? with
  | some c => isWordChar c
  | none => false

/-- Word boundary at position i: word-ness differs between the
character before i and the character at i. -/
def isBoundary (s : List Char) (i : Nat) : Bool :=
  (decide (0 < i) && atWord s (i - 1)) != atWord s i

/-- Length of the maximal run of characters matching m. -/
def runLenAux (m : CM) : List Char → Nat
  | [] => 0
  | c :: cs => if m.mch c then runLenAux m cs + 1 else 0

/-- All end positions of a star over a single-character matcher starting
at i: zero or more characters of the class. -/
def starEnds (m : CM) (s : List Char) (i : Nat) : List Nat :=
  (List.range (runLenAux m (s.drop i) + 1)).map (i + ·)

/-- All end positions of matches of r in s starting at position i.
The end anchor also matches just before a single trailing newline, as
the Python dollar anchor does. -/
def matchEnds : RE → List Char → Nat → List Nat
  | .eps, _, i => [i]
  | .one m, s, i =>
      match s[i]? with
      | some c => if m.mch c then [i + 1] else []
      | none => []
  | .seq a b, s, i => (matchEnds a s i).flatMap (fun j => matchEnds b s j)
  | .alt a b, s, i => matchEnds a s i ++ matchEnds b s i
  | .opt a, s, i => i :: matchEnds a s i
  | .starC m, s, i => starEnds m s i
  | .wordB, s, i => if isBoundary s i then [i] else []
  | .eol, s, i =>
      if i = s.length || (i + 1 = s.length && s[i]? == some '\n') then [i] else []

/-- Python re.search: does r match anywhere in the text? -/
def re_search (r : RE) (text : String) : Bool :=
  (List.range (text.data.length + 1)).any (fun i => !(matchEnds r text.data i).isEmpty)

/-- Python re.match: does r match at the start of the text? -/
def re_match (r : RE) (text : String) : Bool :=
  !(matchEnds r text.data 0).isEmpty

/-- A sequence of literal characters. -/
def lits : List Char → RE
  | [] => .eps
  | c :: cs => .seq (.one (.cls [c])) (lits cs)

/-- A whole word: boundary, literals, boundary. -/
def word (w : String) : RE := .seq .wordB (.seq (lits w.data) .wordB)

/-- Right-nested sequence of a list of regexes. -/
def rseq (l : List RE) : RE := l.foldr .seq .eps

/-- One or more characters of a single-character matcher. -/
def plusC (m : CM) : RE := .seq (.one m) (.starC m)

/-- Closed enumeration of field types (models.py FieldType). -/
inductive FieldType where
  | TEXT
  | NUMBER
  | DATE
  | EMAIL
  | PHONE
  | CHECKBOX
  | NRIC
  deriving DecidableEq, Repr

/-- TEXT label patterns of field_detector.py, lowercased literals. -/
def textPatterns : List RE :=
  [word "name", word "address", word "occupation",
   word "nationality", word "company",
   rseq [.wordB, lits "organi".data, .opt (.one (.cls ['s'])), lits "ation".data, .wordB],
   word "gender", word "sex", word "race", word "religion",
   word "signature",
   rseq [.wordB, lits "remark".data, .opt (.one (.cls ['s'])), .wordB],
   word "purpose"]

/-- EMAIL label patterns: e, optional dash or whitespace, mail. -/
def emailPatterns : List RE :=
  [rseq [.wordB, lits "e".data, .opt (.one (.cls ('-' :: wsChars))), lits "mail".data, .wordB]]

/-- PHONE label patterns. -/
def phonePatterns : List RE :=
  [word "phone",
   rseq [.wordB, lits "tel".data, .opt (lits "ephone".data), .wordB],
   word "mobile",
   rseq [.wordB, lits "contact".data, .starC (.cls wsChars),
         .alt (lits "no".data) (lits "number".data), .wordB],
   word "fax"]

/-- DATE label patterns. -/
def datePatterns : List RE :=
  [word "date", word "dob",
   rseq [.wordB, lits "date".data, .starC (.cls wsChars), lits "of".data,
         .starC (.cls wsChars), lits "birth".data, .wordB],
   word "expiry",
   rseq [.wordB, lits "issue".data, .starC (.cls wsChars), lits "date".data, .wordB]]

/-- NRIC label patterns. -/
def nricPatterns : List RE :=
  [word "nric", word "fin",
   rseq [.wordB, lits "ic".data, .starC (.cls wsChars), lits "no".data, .wordB]]

/-- NUMBER label patterns. -/
def numberPatterns : List RE :=
  [word "age",
   rseq [.wordB, lits "postal".data, .starC (.cls wsChars), lits "code".data, .wordB],
   word "zip",
   rseq [.wordB, lits "unit".data, .starC (.cls wsChars), lits "no".data, .wordB],
   word "block"]

/-- The ordered pattern table of field_detector.py (a Python dict in
insertion order: TEXT, EMAIL, PHONE, DATE, NRIC, NUMBER). -/
def LABEL_PATTERNS : List (FieldType × List RE) :=
  [(.TEXT, textPatterns), (.EMAIL, emailPatterns), (.PHONE, phonePatterns),
   (.DATE, datePatterns), (.NRIC, nricPatterns), (.NUMBER, numberPatterns)]

/-- Does some pattern of the list match the text?  The source patterns
all carry the case-insensitive flag, modelled by lowercasing. -/
def matchesSome (pats : List RE) (text : String) : Bool :=
  pats.any (fun p => re_search p (pyLower text))

/-- field_detector.classify_label: first type in table order one of
whose patterns matches, else none. -/
def classify_label (text : String) : Option FieldType :=
  LABEL_PATTERNS.findSome? (fun tp => if matchesSome tp.2 text then some tp.1 else none)

/-- field_detector.is_required: text contains an asterisk or the word
required or mandatory, case-insensitively. -/
def is_required (label_text : String) : Bool :=
  re_search (.alt (.one (.cls ['*'])) (.alt (word "required") (word "mandatory")))
    (pyLower label_text)

/-- Python str.strip: drop leading and trailing whitespace. -/
def pyStrip (s : String) : String :=
  ⟨((s.data.dropWhile (wsChars.contains ·)).reverse.dropWhile (wsChars.contains ·)).reverse⟩

/-- Replace every maximal whitespace run by a single space. -/
def collapseWs : List Char → List Char
  | [] => []
  | [c] => if wsChars.contains c then [' '] else [c]
  | c :: d :: cs =>
      if wsChars.contains c && wsChars.contains d then collapseWs (d :: cs)
      else (if wsChars.contains c then ' ' else c) :: collapseWs (d :: cs)

/-- field_detector.clean_label: strip, remove the trailing run of
colons and asterisks, collapse whitespace runs, strip. -/
def clean_label (text : String) : String :=
  let t1 := (pyStrip text).data
  let t2 := (t1.reverse.dropWhile (fun c => c == ':' || c == '*')).reverse
  pyStrip ⟨collapseWs t2⟩

/-- Bounding box (x1, y1, x2, y2) in integer pixels. -/
structure BBox where
  x1 : Int
  y1 : Int
  x2 : Int
  y2 : Int
  deriving DecidableEq, Repr

/-- Data-model well-formedness of a bounding box. -/
def bboxWellFormed (b : BBox) : Prop := b.x1 ≤ b.x2 ∧ b.y1 ≤ b.y2

/-- models.FormField.  The confidence is kept as a rational; the core
only compares confidences. -/
structure FormField where
  field_id : String
  page_index : Int
  label_text : String
  field_type : FieldType
  target_bbox : BBox
  label_bbox : BBox
  required : Bool
  confidence : Rat
  answer : String
  validation_hint : String
  deriving DecidableEq

/-- One iteration of the candidate loop of
field_detector.find_nearest_input_region.  The state is the current
(best, best_dist) pair.  Vertical centers are compared exactly by
doubling: abs of region_center_y minus label_center_y under 30 with
half-integer centers is abs of (ry1 + ry2) - (ly1 + ly2) under 60. -/
def nearestStep (lb : BBox) (st : Option BBox × Int) (r : BBox) : Option BBox × Int :=
  if |(r.y1 + r.y2) - (lb.y1 + lb.y2)| < 60 ∧ lb.x2 < r.x1 then
    let d := r.x1 - lb.x2
    if d < st.2 then (some r, d) else st
  else if lb.y2 < r.y1 ∧ |r.x1 - lb.x1| < 100 then
    let d := r.y1 - lb.y2
    if d < st.2 then (some r, d) else st
  else st

/-- field_detector.find_nearest_input_region. -/
def find_nearest_input_region (label_bbox : BBox) (input_regions : List BBox)
    (max_distance : Int) : Option BBox :=
  (input_regions.foldl (nearestStep label_bbox) (none, max_distance)).1

/-- field_detector.infer_answer_region.  The int of page_width * 0.8 is
truncating division, exact for realistic page widths. -/
def infer_answer_region (label_bbox : BBox) (page_width : Int) : BBox :=
  let target_x2 := min (label_bbox.x2 + 400) (Int.tdiv (4 * page_width) 5)
  ⟨label_bbox.x2 + 10, label_bbox.y1, target_x2, label_bbox.y2⟩

/-- Target-box resolution of field_detector.detect_fields: the nearest
input region within the default 200px cap, else the synthesized
region. -/
def resolve_target (label_bbox : BBox) (input_regions : List BBox)
    (page_width : Int) : BBox :=
  match find_nearest_input_region label_bbox input_regions 200 with
  | some r => r
  | none => infer_answer_region label_bbox page_width

/-- The same-row acceptance geometry of the spatial associator:
vertical centers within 30px (doubled comparison) and the candidate
strictly right of the label. -/
def sameRowCond (lb r : BBox) : Prop :=
  |(r.y1 + r.y2) - (lb.y1 + lb.y2)| < 60 ∧ lb.x2 < r.x1

/-- The below acceptance geometry of the spatial associator: candidate
top edge below the label bottom edge and left edges within 100px. -/
def belowCond (lb r : BBox) : Prop :=
  lb.y2 < r.y1 ∧ |r.x1 - lb.x1| < 100

instance sameRowCond.dec (lb r : BBox) : Decidable (sameRowCond lb r) := by
  unfold sameRowCond; infer_instance

instance belowCond.dec (lb r : BBox) : Decidable (belowCond lb r) := by
  unfold belowCond; infer_instance

/-- The effective distance the candidate loop assigns to a region: the
same-row branch is tested first, so when a region satisfies both
geometries only its same-row distance is considered; a region in
neither geometry gets no distance. -/
def candDist (lb r : BBox) : Option Int :=
  if sameRowCond lb r then some (r.x1 - lb.x2)
  else if belowCond lb r then some (r.y1 - lb.y2)
  else none

/-- Erase the identifier component of a field, keeping all other
components. -/
def stripId (f : FormField) : FormField := { f with field_id := "" }

/-- Sort key of field_ordering.order_fields: page, 20px row bucket of
the label y1 (Python floor division), label x1. -/
def sort_key (f : FormField) : Int × Int × Int :=
  (f.page_index, Int.fdiv f.label_bbox.y1 20, f.label_bbox.x1)

/-- Lexicographic order on sort keys. -/
def keyLe (a b : Int × Int × Int) : Prop :=
  a.1 < b.1 ∨ (a.1 = b.1 ∧ (a.2.1 < b.2.1 ∨ (a.2.1 = b.2.1 ∧ a.2.2 ≤ b.2.2)))

instance keyLe.dec (a b : Int × Int × Int) : Decidable (keyLe a b) := by
  unfold keyLe; infer_instance

/-- Boolean comparator used for the stable sort. -/
def fieldLe (a b : FormField) : Bool := decide (keyLe (sort_key a) (sort_key b))

/-- Python format f with 03d: zero-padded to at least three digits. -/
def fmtId (i : Nat) : String :=
  if i < 10 then "f00" ++ toString i
  else if i < 100 then "f0" ++ toString i
  else "f" ++ toString i

/-- Identifier reassignment loop of order_fields. -/
def assignIds : Nat → List FormField → List FormField
  | _, [] => []
  | i, f :: fs => { f with field_id := fmtId i } :: assignIds (i + 1) fs

/-- field_ordering.order_fields: stable sort by sort_key, then dense
sequential identifier reassignment. -/
def order_fields (fields : List FormField) : List FormField :=
  assignIds 0 (fields.mergeSort fieldLe)

/-- Deduplication key of llm_extractor.merge_fields: label text
stripped and lowercased. -/
def normKey (f : FormField) : String := pyLower (pyStrip f.label_text)

/-- The seen dictionary, as an association list whose first matching
binding is the most recent one (Python dict lookup of the latest
binding for a key). -/
def dictGet (s : List (String × FormField)) (k : String) : Option FormField :=
  match s.find? (fun kv => kv.1 == k) with
  | some kv => some kv.2
  | none => none

/-- The dict comprehension over the heuristic list: a later entry for
the same key shadows an earlier one. -/
def buildSeen : List FormField → List (String × FormField)
  | [] => []
  | f :: fs => buildSeen fs ++ [(normKey f, f)]

/-- One iteration of the loop of llm_extractor.merge_fields: skip empty
keys, append new keys, replace on strictly higher confidence (the
replacement removes the existing record and appends the incoming one at
the end). -/
def mergeStep (st : List FormField × List (String × FormField)) (f : FormField) :
    List FormField × List (String × FormField) :=
  let key := normKey f
  if key = "" then st
  else
    match dictGet st.2 key with
    | none => (st.1 ++ [f], (key, f) :: st.2)
    | some existing =>
        if existing.confidence < f.confidence then
          (st.1.erase existing ++ [f], (key, f) :: st.2)
        else st

/-- llm_extractor.merge_fields. -/
def merge_fields (heuristic llm : List FormField) : List FormField :=
  if llm.isEmpty then heuristic
  else (llm.foldl mergeStep (heuristic, buildSeen heuristic)).1

/-- Python str.isdigit: nonempty and all digits (ASCII model). -/
def isPyDigitStr (s : List Char) : Bool := !s.isEmpty && s.all (·.isDigit)

/-- Characters removed from a phone answer before digit counting. -/
def phoneStripChars : List Char := wsChars ++ ['-', '+', '(', ')']

/-- The remaining characters of a phone answer after stripping the
answer and removing whitespace, dashes, pluses and parentheses. -/
def phoneDigits (answer : String) : List Char :=
  (pyStrip answer).data.filter (fun c => !phoneStripChars.contains c)

def digitChars : List Char := ['0', '1', '2', '3', '4', '5', '6', '7', '8', '9']

def ucLetters : List Char := (List.range 26).map (fun i => Char.ofNat (65 + i))

/-- Email pattern of validators.py: nonempty runs without at-sign or
whitespace around one at-sign, with a dot in the domain, anchored. -/
def emailRE : RE :=
  rseq [plusC (.ncls ('@' :: wsChars)), .one (.cls ['@']),
        plusC (.ncls ('@' :: wsChars)), .one (.cls ['.']),
        plusC (.ncls ('@' :: wsChars)), .eol]

/-- One or two digits. -/
def d12 : RE := .seq (.one (.cls digitChars)) (.opt (.one (.cls digitChars)))

/-- Date pattern one: d/m/y with two to four year digits. -/
def dateRE1 : RE :=
  rseq [d12, .one (.cls ['/', '-']), d12, .one (.cls ['/', '-']),
        .one (.cls digitChars), .one (.cls digitChars),
        .opt (.one (.cls digitChars)), .opt (.one (.cls digitChars)), .eol]

/-- Date pattern two: four-digit year first. -/
def dateRE2 : RE :=
  rseq [.one (.cls digitChars), .one (.cls digitChars),
        .one (.cls digitChars), .one (.cls digitChars),
        .one (.cls ['/', '-']), d12, .one (.cls ['/', '-']), d12, .eol]

/-- NRIC pattern: leading letter of the fixed set, seven digits, one
uppercase trailing letter, anchored. -/
def nricRE : RE :=
  rseq [.one (.cls ['S', 'T', 'F', 'G', 'M']),
        .one (.cls digitChars), .one (.cls digitChars), .one (.cls digitChars),
        .one (.cls digitChars), .one (.cls digitChars), .one (.cls digitChars),
        .one (.cls digitChars), .one (.cls ucLetters), .eol]

/-- validators.validate_field.  Returns the validity flag and the
optional error message. -/
def validate_field (field_type : FieldType) (answer : String) : Bool × Option String :=
  if pyStrip answer = "" then (true, none)
  else
    let answer := pyStrip answer
    match field_type with
    | .EMAIL =>
        if !re_match emailRE answer then
          (false, some "Please enter a valid email address (must contain @).")
        else (true, none)
    | .PHONE =>
        let digits := answer.data.filter (fun c => !phoneStripChars.contains c)
        if !isPyDigitStr digits || digits.length < 7 || digits.length > 15 then
          (false, some "Please enter a valid phone number (7–15 digits).")
        else (true, none)
    | .DATE =>
        if !re_match dateRE1 answer && !re_match dateRE2 answer then
          (false, some "Please enter a valid date (DD/MM/YYYY or YYYY-MM-DD).")
        else (true, none)
    | .NRIC =>
        if !re_match nricRE (pyUpper answer) then
          (false, some "Please enter a valid NRIC/FIN (e.g., S1234567A).")
        else (true, none)
    | .NUMBER =>
        let cleaned := answer.data.filter (fun c => !(c == '.' || c == '-' || c == ','))
        if !isPyDigitStr cleaned then (false, some "Please enter a number.")
        else (true, none)
    | _ => (true, none)

/-- Invariant of the candidate loop of find_nearest_input_region with
cap 200, relative to the already processed prefix: either nothing
qualified yet and the best distance still is the cap, or the best
region is the first processed region attaining the current best
distance, every earlier processed region being strictly farther and
every later one at least as far. -/
def NInv (lb : BBox) (done : List BBox) (st : Option BBox × Int) : Prop :=
  match st.1 with
  | none => st.2 = 200 ∧ ∀ r ∈ done, ∀ d, candDist lb r = some d → 200 ≤ d
  | some b => st.2 < 200 ∧ candDist lb b = some st.2 ∧
      ∃ p1 p2, done = p1 ++ b :: p2 ∧
        (∀ r ∈ p1, ∀ d, candDist lb r = some d → st.2 < d) ∧
        (∀ r ∈ p2, ∀ d, candDist lb r = some d → st.2 ≤ d)

/-- Invariant of the fusion loop: the working list has pairwise
distinct normalized keys, the seen dictionary maps the key of every
working-list entry back to that entry, and every dictionary binding
points into the working list at its own key. -/
def MInv (st : List FormField × List (String × FormField)) : Prop :=
  st.1.Pairwise (fun a b => normKey a ≠ normKey b) ∧
  (∀ g ∈ st.1, dictGet st.2 (normKey g) = some g) ∧
  (∀ k f, dictGet st.2 k = some f → f ∈ st.1 ∧ normKey f = k)

example : classify_label "Email Address *" = some .TEXT := by decide
example : classify_label "E-mail" = some .EMAIL := by decide
example : classify_label "Contact number" = some .PHONE := by decide
example : classify_label "hello world" = none := by decide
example : is_required "Email Address *" = true := by decide
example : clean_label "Email Address *" = "Email Address" := by decide
example : (validate_field .PHONE "1234567").1 = true := by decide
example : (validate_field .PHONE "123456").1 = false := by decide
example : (validate_field .PHONE "+65 (123) 456-7").1 = true := by decide
example : (validate_field .NRIC "s1234567a").1 = true := by decide
example : (validate_field .DATE "12/3/2024").1 = true := by decide
example : (validate_field .EMAIL "a@b.c").1 = true := by decide
example : (validate_field .EMAIL "ab.c").1 = false := by decide
example : fmtId 7 = "f007" := by decide

/-- Claim C5: fusing any heuristic field list with an empty external
list returns the heuristic list unchanged. -/
theorem C5_merge_empty_identity (heuristic : List FormField) :
    merge_fields heuristic [] = heuristic := rfl

/-- Claim C8: when the incoming external field has exactly the
confidence of the existing field under the same normalized label key,
the existing field is kept and the merged list is unchanged: the
confidence comparison is strict. -/
theorem C8_tie_keeps_existing (heuristic : List FormField) (g ex : FormField)
    (hget : dictGet (buildSeen heuristic) (normKey g) = some ex)
    (hconf : g.confidence = ex.confidence) :
    merge_fields heuristic [g] = heuristic := by
  by_cases hk : normKey g = ""
  · simp [merge_fields, mergeStep, hk]
  · simp [merge_fields, mergeStep, hk, hget, hconf]

/-- Claim C8 witness: a concrete tie between an existing field and an
incoming field with the same key and equal confidence. -/
theorem C8_tie_keeps_existing_witness :
    merge_fields
      [⟨"f000", 0, "Name", .TEXT, ⟨0, 0, 0, 0⟩, ⟨0, 0, 0, 0⟩, false, 1, "", ""⟩]
      [⟨"llm000", 0, " NAME ", .TEXT, ⟨1, 1, 2, 2⟩, ⟨1, 1, 2, 2⟩, true, 1, "", ""⟩] =
      [⟨"f000", 0, "Name", .TEXT, ⟨0, 0, 0, 0⟩, ⟨0, 0, 0, 0⟩, false, 1, "", ""⟩] :=
  C8_tie_keeps_existing _ _
    ⟨"f000", 0, "Name", .TEXT, ⟨0, 0, 0, 0⟩, ⟨0, 0, 0, 0⟩, false, 1, "", ""⟩
    (by decide) (by decide)

/-- Claim C6 counterexample: the label line with the text Email Address
followed by an asterisk is classified TEXT, not EMAIL, because the TEXT
pattern for the word address matches and TEXT precedes EMAIL in the
fixed priority order. -/
theorem C6_counterexample :
    classify_label "Email Address *" = some FieldType.TEXT ∧
    classify_label "Email Address *" ≠ some FieldType.EMAIL := by decide

/-- Claim C6 (amended): the label line with the text Email Address
followed by an asterisk is classified TEXT (the TEXT pattern for the
word address wins by priority), its required flag is true, and its
cleaned label text is Email Address. -/
theorem C6_email_address_scenario :
    classify_label "Email Address *" = some FieldType.TEXT ∧
    is_required "Email Address *" = true ∧
    clean_label "Email Address *" = "Email Address" := by decide

/-- Claim C10: whenever the capped right edge falls left of the
synthesized start, the synthesized answer region is degenerate: its x2
is strictly below its x1, violating bounding-box well-formedness, and
the target resolution of the pipeline passes the degenerate box through
unchanged when no candidate region exists. -/
theorem C10_degenerate_synthesized_region (lb : BBox) (w : Int)
    (h : min (lb.x2 + 400) (Int.tdiv (4 * w) 5) < lb.x2 + 10) :
    (infer_answer_region lb w).x2 < (infer_answer_region lb w).x1 ∧
    ¬ bboxWellFormed (infer_answer_region lb w) ∧
    resolve_target lb [] w = infer_answer_region lb w := by
  refine ⟨?_, ?_, rfl⟩
  · simpa [infer_answer_region] using h
  · simp only [bboxWellFormed, infer_answer_region, not_and]
    intro hx
    omega

/-- Claim C10 witness: a label whose right edge sits exactly at 80
percent of the page width yields a synthesized region with x1 strictly
greater than x2. -/
theorem C10_degenerate_synthesized_region_witness :
    (infer_answer_region ⟨0, 0, 800, 20⟩ 1000).x2 <
      (infer_answer_region ⟨0, 0, 800, 20⟩ 1000).x1 ∧
    ¬ bboxWellFormed (infer_answer_region ⟨0, 0, 800, 20⟩ 1000) ∧
    resolve_target ⟨0, 0, 800, 20⟩ [] 1000 = infer_answer_region ⟨0, 0, 800, 20⟩ 1000 :=
  C10_degenerate_synthesized_region ⟨0, 0, 800, 20⟩ 1000 (by decide)

/-- Claim C7 counterexample: the empty phone answer is accepted by the
validator although its remaining character count is not between 7 and
15, so the claimed exact acceptance condition fails as stated. -/
theorem C7_counterexample :
    (validate_field .PHONE "").1 = true ∧ (phoneDigits "").length < 7 := by decide

/-- Claim C7 (amended): for phone answers that are nonempty after
trimming, validation strips whitespace, dashes, parentheses and plus
signs and accepts exactly the answers whose remaining characters are
all digits and number between 7 and 15 inclusive; the four boundary
examples behave as claimed. -/
theorem C7_phone_validation :
    (∀ s, pyStrip s ≠ "" →
      ((validate_field .PHONE s).1 = true ↔
        ((phoneDigits s).all (fun c => c.isDigit) = true ∧
          7 ≤ (phoneDigits s).length ∧ (phoneDigits s).length ≤ 15))) ∧
    (validate_field .PHONE "123456").1 = false ∧
    (validate_field .PHONE "1234567").1 = true ∧
    (validate_field .PHONE "123456789012345").1 = true ∧
    (validate_field .PHONE "1234567890123456").1 = false := by
  refine ⟨?_, by decide, by decide, by decide, by decide⟩
  intro s hs
  have hd : (pyStrip s).data.filter (fun c => !phoneStripChars.contains c) =
      phoneDigits s := rfl
  simp only [validate_field, if_neg hs, hd]
  constructor
  · intro h
    by_cases hb : (!isPyDigitStr (phoneDigits s) ||
        decide ((phoneDigits s).length < 7) || decide (15 < (phoneDigits s).length)) = true
    · rw [if_pos hb] at h
      exact absurd h (by simp)
    · simp only [Bool.or_eq_true, Bool.not_eq_true', decide_eq_true_eq, not_or] at hb
      obtain ⟨⟨h1, h2⟩, h3⟩ := hb
      have : isPyDigitStr (phoneDigits s) = true := by simpa using h1
      simp only [isPyDigitStr, Bool.and_eq_true, Bool.not_eq_true'] at this
      exact ⟨this.2, by omega, by omega⟩
  · rintro ⟨h1, h2, h3⟩
    have hne : (phoneDigits s).isEmpty = false := by
      cases hpd : phoneDigits s with
      | nil => rw [hpd] at h2; simp at h2
      | cons a l => simp
    have hpy : isPyDigitStr (phoneDigits s) = true := by
      simp only [isPyDigitStr, Bool.and_eq_true, Bool.not_eq_true']
      exact ⟨hne, h1⟩
    rw [if_neg]
    simp only [Bool.or_eq_true, Bool.not_eq_true', decide_eq_true_eq, not_or]
    exact ⟨⟨by simp [hpy], by omega⟩, by omega⟩

/-- Claim C7 witness: the boundary seven-digit answer instantiates the
amended acceptance equivalence. -/
theorem C7_phone_validation_witness :
    (validate_field .PHONE "1234567").1 = true ↔
      ((phoneDigits "1234567").all (fun c => c.isDigit) = true ∧
        7 ≤ (phoneDigits "1234567").length ∧ (phoneDigits "1234567").length ≤ 15) :=
  C7_phone_validation.1 "1234567" (by decide)

/-- Claim C2: classification evaluates the per-type pattern lists in
the fixed priority order TEXT, EMAIL, PHONE, DATE, NRIC, NUMBER and
returns the first type one of whose patterns matches; text matching
both a TEXT pattern and a PHONE pattern classifies as TEXT; text
matching no pattern of any type yields no field type. -/
theorem C2_classifier_priority (t : String) :
    (classify_label t =
      if matchesSome textPatterns t then some FieldType.TEXT
      else if matchesSome emailPatterns t then some FieldType.EMAIL
      else if matchesSome phonePatterns t then some FieldType.PHONE
      else if matchesSome datePatterns t then some FieldType.DATE
      else if matchesSome nricPatterns t then some FieldType.NRIC
      else if matchesSome numberPatterns t then some FieldType.NUMBER
      else none) ∧
    (matchesSome textPatterns t = true ∧ matchesSome phonePatterns t = true →
      classify_label t = some FieldType.TEXT) ∧
    ((∀ p ∈ LABEL_PATTERNS, matchesSome p.2 t = false) →
      classify_label t = none) := by
  have hmain : classify_label t =
      if matchesSome textPatterns t then some FieldType.TEXT
      else if matchesSome emailPatterns t then some FieldType.EMAIL
      else if matchesSome phonePatterns t then some FieldType.PHONE
      else if matchesSome datePatterns t then some FieldType.DATE
      else if matchesSome nricPatterns t then some FieldType.NRIC
      else if matchesSome numberPatterns t then some FieldType.NUMBER
      else none := by
    simp only [classify_label, LABEL_PATTERNS, List.findSome?_cons, List.findSome?_nil]
    cases matchesSome textPatterns t <;>
      cases matchesSome emailPatterns t <;>
        cases matchesSome phonePatterns t <;>
          cases matchesSome datePatterns t <;>
            cases matchesSome nricPatterns t <;>
              cases matchesSome numberPatterns t <;> simp
  refine ⟨hmain, ?_, ?_⟩
  · rintro ⟨ht, _⟩
    rw [hmain, if_pos ht]
  · intro hall
    have h1 := hall (FieldType.TEXT, textPatterns) (by simp [LABEL_PATTERNS])
    have h2 := hall (FieldType.EMAIL, emailPatterns) (by simp [LABEL_PATTERNS])
    have h3 := hall (FieldType.PHONE, phonePatterns) (by simp [LABEL_PATTERNS])
    have h4 := hall (FieldType.DATE, datePatterns) (by simp [LABEL_PATTERNS])
    have h5 := hall (FieldType.NRIC, nricPatterns) (by simp [LABEL_PATTERNS])
    have h6 := hall (FieldType.NUMBER, numberPatterns) (by simp [LABEL_PATTERNS])
    rw [hmain]
    simp [h1, h2, h3, h4, h5, h6]

/-- Claim C2 witness: a line containing the word name and the word
phone matches both a TEXT pattern and a PHONE pattern and classifies as
TEXT. -/
theorem C2_classifier_priority_witness :
    classify_label "Name and phone 91234567" = some FieldType.TEXT :=
  (C2_classifier_priority "Name and phone 91234567").2.1 ⟨by decide, by decide⟩

/-- Transitivity of the boolean sort comparator. -/
theorem fieldLe_trans (a b c : FormField) (hab : fieldLe a b = true)
    (hbc : fieldLe b c = true) : fieldLe a c = true := by
  simp only [fieldLe, decide_eq_true_eq, keyLe] at *
  rcases hab with h | ⟨e1, h | ⟨e2, h⟩⟩ <;> rcases hbc with h' | ⟨e1', h' | ⟨e2', h'⟩⟩ <;>
    omega

/-- Totality of the boolean sort comparator. -/
theorem fieldLe_total (a b : FormField) : (fieldLe a b || fieldLe b a) = true := by
  simp only [fieldLe, Bool.or_eq_true, decide_eq_true_eq, keyLe]
  omega

/-- Every member of the identifier-reassigned list is a member of the
input list with only the identifier replaced. -/
theorem mem_assignIds (b : FormField) : ∀ (i : Nat) (l : List FormField),
    b ∈ assignIds i l → ∃ g ∈ l, ∃ m, b = { g with field_id := fmtId m } := by
  intro i l
  induction l generalizing i with
  | nil => simp [assignIds]
  | cons f fs ih =>
      intro hb
      rcases List.mem_cons.mp hb with h | h
      · exact ⟨f, List.mem_cons_self f fs, i, h⟩
      · obtain ⟨g, hg, m, hm⟩ := ih (i + 1) h
        exact ⟨g, List.mem_cons_of_mem f hg, m, hm⟩

/-- Identifier reassignment leaves the sort key of every element
unchanged, so pairwise key order is preserved. -/
theorem assignIds_pairwise (i : Nat) (l : List FormField)
    (h : l.Pairwise (fun a b => keyLe (sort_key a) (sort_key b))) :
    (assignIds i l).Pairwise (fun a b => keyLe (sort_key a) (sort_key b)) := by
  induction l generalizing i with
  | nil => exact List.Pairwise.nil
  | cons f fs ih =>
      rcases List.pairwise_cons.mp h with ⟨hf, ht⟩
      refine List.Pairwise.cons ?_ (ih (i + 1) ht)
      intro b hb
      obtain ⟨g, hg, m, rfl⟩ := mem_assignIds b (i + 1) fs hb
      exact hf g hg

/-- The identifiers produced by the reassignment loop are the formatted
consecutive indices. -/
theorem assignIds_map_id : ∀ (i : Nat) (l : List FormField),
    (assignIds i l).map (fun f => f.field_id) = (List.range' i l.length).map fmtId := by
  intro i l
  induction l generalizing i with
  | nil => simp [assignIds]
  | cons f fs ih => simp [assignIds, List.range'_succ, ih]

/-- Claim C1: the ordered list has non-decreasing sort keys on all
adjacent pairs, and its identifiers are exactly the dense sequential
formatted indices in output order. -/
theorem C1_order_fields_sorted_and_ids (fields : List FormField) :
    List.Chain' (fun a b => keyLe (sort_key a) (sort_key b)) (order_fields fields) ∧
    (order_fields fields).map (fun f => f.field_id) =
      (List.range fields.length).map fmtId := by
  constructor
  · apply List.Pairwise.chain'
    apply assignIds_pairwise
    exact (List.sorted_mergeSort fieldLe_trans fieldLe_total fields).imp
      (fun h => by simpa [fieldLe, decide_eq_true_eq] using h)
  · rw [order_fields, assignIds_map_id, List.range_eq_range']
    rw [(List.mergeSort_perm fields fieldLe).length_eq]

/-- Stripping identifiers after reassignment is stripping identifiers
before it: reassignment changes no other component. -/
theorem assignIds_map_stripId : ∀ (i : Nat) (l : List FormField),
    (assignIds i l).map stripId = l.map stripId := by
  intro i l
  induction l generalizing i with
  | nil => rfl
  | cons f fs ih => simp [assignIds, stripId, ih]

/-- Claim C9: the ordered list is a permutation of the input fields
with only the identifier component changed; every other component of
every field is unchanged and no field is added, dropped or duplicated. -/
theorem C9_order_fields_frame (fields : List FormField) :
    ((order_fields fields).map stripId).Perm (fields.map stripId) := by
  rw [order_fields, assignIds_map_stripId]
  exact (List.mergeSort_perm fields fieldLe).map stripId

/-- The candidate loop body seen through the effective candidate
distance: update exactly when the candidate has a distance strictly
below the running best. -/
theorem nearestStep_eq (lb : BBox) (st : Option BBox × Int) (r : BBox) :
    nearestStep lb st r =
      match candDist lb r with
      | some d => if d < st.2 then (some r, d) else st
      | none => st := by
  unfold nearestStep candDist sameRowCond belowCond
  by_cases h1 : |(r.y1 + r.y2) - (lb.y1 + lb.y2)| < 60 ∧ lb.x2 < r.x1
  · simp [h1]
  · by_cases h2 : lb.y2 < r.y1 ∧ |r.x1 - lb.x1| < 100 <;> simp [h1, h2]

/-- The invariant at a state with no best region yet. -/
theorem NInv_none (lb : BBox) (done : List BBox) (d : Int) :
    NInv lb done (none, d) ↔
      (d = 200 ∧ ∀ r ∈ done, ∀ e, candDist lb r = some e → 200 ≤ e) := Iff.rfl

/-- The invariant at a state holding a best region. -/
theorem NInv_some (lb : BBox) (done : List BBox) (b : BBox) (d : Int) :
    NInv lb done (some b, d) ↔
      (d < 200 ∧ candDist lb b = some d ∧
        ∃ p1 p2, done = p1 ++ b :: p2 ∧
          (∀ r ∈ p1, ∀ e, candDist lb r = some e → d < e) ∧
          (∀ r ∈ p2, ∀ e, candDist lb r = some e → d ≤ e)) := Iff.rfl

/-- One candidate preserves the loop invariant. -/
theorem NInv_step (lb : BBox) (done : List BBox) (st : Option BBox × Int) (r : BBox)
    (h : NInv lb done st) : NInv lb (done ++ [r]) (nearestStep lb st r) := by
  obtain ⟨sb, sd⟩ := st
  have heq := nearestStep_eq lb (sb, sd) r
  cases hcd : candDist lb r with
  | none =>
      have heq2 : nearestStep lb (sb, sd) r = (sb, sd) := by rw [heq, hcd]
      rw [heq2]
      cases sb with
      | none =>
          rw [NInv_none] at h ⊢
          refine ⟨h.1, ?_⟩
          intro x hx e he
          rcases List.mem_append.mp hx with hx | hx
          · exact h.2 x hx e he
          · rw [List.mem_singleton.mp hx] at he
            rw [hcd] at he
            exact absurd he (by simp)
      | some b =>
          rw [NInv_some] at h ⊢
          obtain ⟨h1, h2, p1, p2, hp, hfar, hle⟩ := h
          refine ⟨h1, h2, p1, p2 ++ [r], by rw [hp]; simp, hfar, ?_⟩
          intro x hx e he
          rcases List.mem_append.mp hx with hx | hx
          · exact hle x hx e he
          · rw [List.mem_singleton.mp hx] at he
            rw [hcd] at he
            exact absurd he (by simp)
  | some d =>
      have heq2 : nearestStep lb (sb, sd) r = if d < sd then (some r, d) else (sb, sd) := by
        rw [heq, hcd]
      rw [heq2]
      by_cases hlt : d < sd
      · rw [if_pos hlt, NInv_some]
        cases sb with
        | none =>
            rw [NInv_none] at h
            refine ⟨by omega, hcd, done, [], by simp, ?_, by simp⟩
            intro x hx e he
            have := h.2 x hx e he
            omega
        | some b =>
            rw [NInv_some] at h
            obtain ⟨h1, h2, p1, p2, hp, hfar, hle⟩ := h
            refine ⟨by omega, hcd, done, [], by simp, ?_, by simp⟩
            intro x hx e he
            rw [hp] at hx
            rcases List.mem_append.mp hx with hx | hx
            · have := hfar x hx e he
              omega
            · rcases List.mem_cons.mp hx with hx | hx
              · rw [hx] at he
                rw [h2] at he
                have : e = sd := (Option.some.inj he).symm
                omega
              · have := hle x hx e he
                omega
      · rw [if_neg hlt]
        cases sb with
        | none =>
            rw [NInv_none] at h ⊢
            refine ⟨h.1, ?_⟩
            intro x hx e he
            rcases List.mem_append.mp hx with hx | hx
            · exact h.2 x hx e he
            · rw [List.mem_singleton.mp hx] at he
              rw [hcd] at he
              have he2 : e = d := (Option.some.inj he).symm
              have h200 := h.1
              omega
        | some b =>
            rw [NInv_some] at h ⊢
            obtain ⟨h1, h2, p1, p2, hp, hfar, hle⟩ := h
            refine ⟨h1, h2, p1, p2 ++ [r], by rw [hp]; simp, hfar, ?_⟩
            intro x hx e he
            rcases List.mem_append.mp hx with hx | hx
            · exact hle x hx e he
            · rw [List.mem_singleton.mp hx] at he
              rw [hcd] at he
              have he2 : e = d := (Option.some.inj he).symm
              omega

/-- The candidate loop maintains its invariant over any remaining
candidate list. -/
theorem nearest_fold (lb : BBox) : ∀ (regions done : List BBox) (st : Option BBox × Int),
    NInv lb done st → NInv lb (done ++ regions) (regions.foldl (nearestStep lb) st) := by
  intro regions
  induction regions with
  | nil => intro done st h; simpa using h
  | cons r rs ih =>
      intro done st h
      have h2 := NInv_step lb done st r h
      have h3 := ih (done ++ [r]) (nearestStep lb st r) h2
      simpa [List.append_assoc] using h3

/-- Claim C3 counterexample: with the label box (0,0,10,10), the first
candidate (20,11,60,48) qualifies under the below geometry at distance
1 and under the same-row geometry at distance 10; the code takes only
its same-row distance and therefore returns the second candidate
(15,2,60,9) at distance 5, although the globally smallest distance
across both geometries combined is 1, attained by the first
candidate. -/
theorem C3_counterexample :
    find_nearest_input_region ⟨0, 0, 10, 10⟩ [⟨20, 11, 60, 48⟩, ⟨15, 2, 60, 9⟩] 200 =
      some ⟨15, 2, 60, 9⟩ ∧
    belowCond ⟨0, 0, 10, 10⟩ ⟨20, 11, 60, 48⟩ ∧
    sameRowCond ⟨0, 0, 10, 10⟩ ⟨20, 11, 60, 48⟩ ∧
    (⟨20, 11, 60, 48⟩ : BBox).y1 - (⟨0, 0, 10, 10⟩ : BBox).y2 = 1 ∧
    candDist ⟨0, 0, 10, 10⟩ ⟨15, 2, 60, 9⟩ = some 5 ∧
    (1 : Int) < 5 ∧
    (⟨20, 11, 60, 48⟩ : BBox) ≠ (⟨15, 2, 60, 9⟩ : BBox) := by decide

/-- Claim C3 (amended): per candidate the same-row geometry is tested
first and, when it holds, only the same-row distance counts; otherwise
the below geometry and its distance apply.  The selected candidate is
the first one attaining the smallest such distance strictly under the
200px cap (ties resolve to the first-encountered candidate); if no
candidate qualifies, the pipeline falls back to the synthesized region
10px right of the label extending to the capped 80 percent page
width. -/
theorem C3_nearest_region_characterization (lb : BBox) (regions : List BBox) (w : Int) :
    (∀ b, find_nearest_input_region lb regions 200 = some b →
      ∃ d p1 p2, regions = p1 ++ b :: p2 ∧ candDist lb b = some d ∧ d < 200 ∧
        (∀ r ∈ p1, ∀ e, candDist lb r = some e → d < e) ∧
        (∀ r ∈ p2, ∀ e, candDist lb r = some e → d ≤ e)) ∧
    (find_nearest_input_region lb regions 200 = none →
      (∀ r ∈ regions, ∀ e, candDist lb r = some e → 200 ≤ e) ∧
      resolve_target lb regions w = infer_answer_region lb w) ∧
    infer_answer_region lb w =
      ⟨lb.x2 + 10, lb.y1, min (lb.x2 + 400) (Int.tdiv (4 * w) 5), lb.y2⟩ := by
  have hinit : NInv lb [] (none, 200) := by
    rw [NInv_none]
    exact ⟨rfl, by simp⟩
  have hinv := nearest_fold lb regions [] (none, 200) hinit
  rw [List.nil_append] at hinv
  refine ⟨?_, ?_, rfl⟩
  · intro b hb
    rw [find_nearest_input_region] at hb
    cases hst : regions.foldl (nearestStep lb) (none, 200) with
    | mk sb sd =>
        rw [hst] at hinv hb
        have hb2 : sb = some b := hb
        subst hb2
        rw [NInv_some] at hinv
        obtain ⟨h1, h2, p1, p2, hp, hfar, hle⟩ := hinv
        exact ⟨_, p1, p2, hp, h2, h1, hfar, hle⟩
  · intro hn
    have hres : resolve_target lb regions w = infer_answer_region lb w := by
      unfold resolve_target
      rw [hn]
    rw [find_nearest_input_region] at hn
    cases hst : regions.foldl (nearestStep lb) (none, 200) with
    | mk sb sd =>
        rw [hst] at hinv hn
        have hn2 : sb = none := hn
        subst hn2
        rw [NInv_none] at hinv
        exact ⟨hinv.2, hres⟩

/-- Claim C3 witness: the end-to-end scenario of the spec, a same-row
underline 10px right of the label, instantiates the characterization. -/
theorem C3_nearest_region_characterization_witness :
    ∃ d p1 p2, ([⟨130, 95, 400, 121⟩] : List BBox) =
        p1 ++ (⟨130, 95, 400, 121⟩ : BBox) :: p2 ∧
      candDist ⟨50, 100, 120, 120⟩ ⟨130, 95, 400, 121⟩ = some d ∧ d < 200 ∧
      (∀ r ∈ p1, ∀ e, candDist ⟨50, 100, 120, 120⟩ r = some e → d < e) ∧
      (∀ r ∈ p2, ∀ e, candDist ⟨50, 100, 120, 120⟩ r = some e → d ≤ e) :=
  (C3_nearest_region_characterization ⟨50, 100, 120, 120⟩ [⟨130, 95, 400, 121⟩] 1000).1
    ⟨130, 95, 400, 121⟩ (by decide)

/-- Lookup in a dictionary with one more binding at the front. -/
theorem dictGet_cons (kv : String × FormField) (s : List (String × FormField)) (k : String) :
    dictGet (kv :: s) k = if kv.1 == k then some kv.2 else dictGet s k := by
  unfold dictGet
  cases h : (kv.1 == k) <;> simp [List.find?, h]

/-- Lookup in an appended dictionary prefers the front part. -/
theorem dictGet_append (s1 s2 : List (String × FormField)) (k : String) :
    dictGet (s1 ++ s2) k =
      match dictGet s1 k with
      | some v => some v
      | none => dictGet s2 k := by
  induction s1 with
  | nil => simp [dictGet]
  | cons kv s ih =>
      rw [List.cons_append, dictGet_cons, dictGet_cons]
      by_cases h : (kv.1 == k) = true
      · rw [if_pos h, if_pos h]
      · rw [if_neg h, if_neg h, ih]

/-- Any binding found in the seen dictionary built from a list points
to a member of the list at its own key. -/
theorem dictGet_buildSeen_mem : ∀ (hs : List FormField) (k : String) (f : FormField),
    dictGet (buildSeen hs) k = some f → f ∈ hs ∧ normKey f = k := by
  intro hs
  induction hs with
  | nil => intro k f hf; exact absurd hf (by simp [buildSeen, dictGet])
  | cons g gs ih =>
      intro k f hf
      rw [buildSeen, dictGet_append] at hf
      cases hv : dictGet (buildSeen gs) k with
      | some v =>
          rw [hv] at hf
          obtain ⟨hm, hk⟩ := ih k v hv
          have : v = f := by injection hf
          subst this
          exact ⟨List.mem_cons_of_mem g hm, hk⟩
      | none =>
          rw [hv] at hf
          rw [dictGet_cons] at hf
          by_cases hk : (normKey g == k) = true
          · rw [if_pos hk] at hf
            have hgf : g = f := by injection hf
            subst hgf
            exact ⟨List.mem_cons_self g gs, by simpa using hk⟩
          · rw [if_neg hk] at hf
            exact absurd hf (by simp [dictGet])

/-- With pairwise-distinct keys, the seen dictionary built from a list
maps the key of each member back to that member. -/
theorem dictGet_buildSeen_self : ∀ (hs : List FormField),
    hs.Pairwise (fun a b => normKey a ≠ normKey b) →
    ∀ g ∈ hs, dictGet (buildSeen hs) (normKey g) = some g := by
  intro hs
  induction hs with
  | nil => intro _ g hg; exact absurd hg (by simp)
  | cons f fs ih =>
      intro hd g hg
      rcases List.pairwise_cons.mp hd with ⟨hf, ht⟩
      rw [buildSeen, dictGet_append]
      rcases List.mem_cons.mp hg with hg | hg
      · subst hg
        cases hv : dictGet (buildSeen fs) (normKey g) with
        | some v =>
            obtain ⟨hm, hk⟩ := dictGet_buildSeen_mem fs (normKey g) v hv
            exact absurd hk.symm (hf v hm)
        | none => simp [dictGet_cons]
      · rw [ih ht g hg]

/-- Pairwise-distinct normalized keys imply a duplicate-free list. -/
theorem pairwiseKeys_nodup {l : List FormField}
    (h : l.Pairwise (fun a b => normKey a ≠ normKey b)) : l.Nodup :=
  h.imp (fun hk he => hk (by rw [he]))

/-- The fusion loop invariant holds initially. -/
theorem MInv_init (hs : List FormField)
    (hd : hs.Pairwise (fun a b => normKey a ≠ normKey b)) :
    MInv (hs, buildSeen hs) :=
  ⟨hd, dictGet_buildSeen_self hs hd, fun k f hf => dictGet_buildSeen_mem hs k f hf⟩

/-- The defining equation of the fusion loop body. -/
theorem mergeStep_eq (st : List FormField × List (String × FormField)) (f : FormField) :
    mergeStep st f =
      if normKey f = "" then st
      else
        match dictGet st.2 (normKey f) with
        | none => (st.1 ++ [f], (normKey f, f) :: st.2)
        | some existing =>
            if existing.confidence < f.confidence then
              (st.1.erase existing ++ [f], (normKey f, f) :: st.2)
            else st := rfl

/-- The fusion loop body on a fresh nonempty key appends the incoming
field and records it. -/
theorem mergeStep_newkey (st : List FormField × List (String × FormField)) (f : FormField)
    (hk : ¬ normKey f = "") (hget : dictGet st.2 (normKey f) = none) :
    mergeStep st f = (st.1 ++ [f], (normKey f, f) :: st.2) := by
  rw [mergeStep_eq, if_neg hk, hget]

/-- The fusion loop body on an existing nonempty key replaces exactly
when the incoming confidence is strictly higher. -/
theorem mergeStep_existing (st : List FormField × List (String × FormField)) (f ex : FormField)
    (hk : ¬ normKey f = "") (hget : dictGet st.2 (normKey f) = some ex) :
    mergeStep st f =
      if ex.confidence < f.confidence then
        (st.1.erase ex ++ [f], (normKey f, f) :: st.2)
      else st := by
  rw [mergeStep_eq, if_neg hk, hget]

/-- One external candidate preserves the fusion loop invariant. -/
theorem MInv_step (st : List FormField × List (String × FormField)) (f : FormField)
    (h : MInv st) : MInv (mergeStep st f) := by
  obtain ⟨merged, seen⟩ := st
  obtain ⟨ha, hb, hc⟩ := h
  by_cases hk : normKey f = ""
  · rw [mergeStep_eq, if_pos hk]
    exact ⟨ha, hb, hc⟩
  · cases hget : dictGet seen (normKey f) with
    | none =>
        rw [mergeStep_newkey (merged, seen) f hk hget]
        have hnew : ∀ g ∈ merged, normKey g ≠ normKey f := by
          intro g hg he
          have := hb g hg
          rw [he, hget] at this
          exact absurd this (by simp)
        refine ⟨?_, ?_, ?_⟩
        · rw [List.pairwise_append]
          exact ⟨ha, List.pairwise_singleton _ _,
            fun a hay b hby => by rw [List.mem_singleton.mp hby]; exact hnew a hay⟩
        · intro g hg
          rcases List.mem_append.mp hg with hg | hg
          · rw [dictGet_cons, if_neg (by simpa using (hnew g hg).symm)]
            exact hb g hg
          · rw [List.mem_singleton.mp hg, dictGet_cons, if_pos (by simp)]
        · intro k v hv
          rw [dictGet_cons] at hv
          by_cases hkk : (normKey f == k) = true
          · rw [if_pos hkk] at hv
            have : f = v := by injection hv
            subst this
            exact ⟨by simp, by simpa using hkk⟩
          · rw [if_neg hkk] at hv
            obtain ⟨hm, hkey⟩ := hc k v hv
            exact ⟨List.mem_append.mpr (Or.inl hm), hkey⟩
    | some ex =>
        rw [mergeStep_existing (merged, seen) f ex hk hget]
        by_cases hcf : ex.confidence < f.confidence
        · rw [if_pos hcf]
          obtain ⟨hexm, hexk⟩ := hc (normKey f) ex hget
          have hnodup : merged.Nodup := pairwiseKeys_nodup ha
          have hK : ∀ g ∈ merged, normKey g = normKey f → g = ex := by
            intro g hg he
            have := hb g hg
            rw [he, hget] at this
            exact (Option.some.inj this).symm
          refine ⟨?_, ?_, ?_⟩
          · rw [List.pairwise_append]
            refine ⟨ha.sublist (List.erase_sublist ex merged),
              List.pairwise_singleton _ _, ?_⟩
            intro a hay b hby
            rw [List.mem_singleton.mp hby]
            obtain ⟨hane, ham⟩ := (hnodup.mem_erase_iff).mp hay
            intro he
            exact hane (hK a ham he)
          · intro g hg
            rcases List.mem_append.mp hg with hg | hg
            · obtain ⟨hgne, hgm⟩ := (hnodup.mem_erase_iff).mp hg
              have hgk : normKey g ≠ normKey f := fun he => hgne (hK g hgm he)
              rw [dictGet_cons, if_neg (by simpa using hgk.symm)]
              exact hb g hgm
            · rw [List.mem_singleton.mp hg, dictGet_cons, if_pos (by simp)]
          · intro k v hv
            rw [dictGet_cons] at hv
            by_cases hkk : (normKey f == k) = true
            · rw [if_pos hkk] at hv
              have : f = v := by injection hv
              subst this
              exact ⟨by simp, by simpa using hkk⟩
            · rw [if_neg hkk] at hv
              obtain ⟨hm, hkey⟩ := hc k v hv
              have hvne : v ≠ ex := by
                intro he
                subst he
                rw [hexk] at hkey
                exact hkk (by simp [hkey])
              exact ⟨List.mem_append.mpr (Or.inl ((hnodup.mem_erase_iff).mpr ⟨hvne, hm⟩)),
                hkey⟩
        · rw [if_neg hcf]
          exact ⟨ha, hb, hc⟩

/-- The fusion loop preserves its invariant over any external list. -/
theorem MInv_fold : ∀ (l : List FormField) (st),
    MInv st → MInv (l.foldl mergeStep st) := by
  intro l
  induction l with
  | nil => intro st h; exact h
  | cons f fs ih => intro st h; exact ih (mergeStep st f) (MInv_step st f h)

/-- Fusion of a heuristic list with pairwise-distinct normalized keys
yields a list with pairwise-distinct normalized keys, for any external
list. -/
theorem merge_fields_pairwise (heuristic : List FormField)
    (hd : heuristic.Pairwise (fun a b => normKey a ≠ normKey b))
    (llm : List FormField) :
    (merge_fields heuristic llm).Pairwise (fun a b => normKey a ≠ normKey b) := by
  rw [merge_fields]
  by_cases hl : llm.isEmpty = true
  · rw [if_pos hl]; exact hd
  · rw [if_neg hl]
    exact (MInv_fold llm (heuristic, buildSeen heuristic) (MInv_init heuristic hd)).1

/-- Claim C4: with pairwise-distinct heuristic keys, fusion produces a
list with no two entries sharing a normalized label key; for a key
present in both lists the incoming field replaces the existing one
exactly when its confidence is strictly higher, the survivor moving to
the end of the working list, and otherwise the list is unchanged;
fusing the same external field twice never produces two entries sharing
a normalized label key. -/
theorem C4_merge_dedup (heuristic : List FormField)
    (hd : heuristic.Pairwise (fun a b => normKey a ≠ normKey b)) :
    (∀ llm, (merge_fields heuristic llm).Pairwise (fun a b => normKey a ≠ normKey b)) ∧
    (∀ g ex, normKey g ≠ "" → dictGet (buildSeen heuristic) (normKey g) = some ex →
      (ex.confidence < g.confidence →
        merge_fields heuristic [g] = heuristic.erase ex ++ [g]) ∧
      (g.confidence ≤ ex.confidence → merge_fields heuristic [g] = heuristic)) ∧
    (∀ g, (merge_fields (merge_fields heuristic [g]) [g]).Pairwise
      (fun a b => normKey a ≠ normKey b)) := by
  refine ⟨merge_fields_pairwise heuristic hd, ?_, ?_⟩
  · intro g ex hk hget
    constructor
    · intro hcf
      rw [merge_fields]
      rw [if_neg (by simp)]
      rw [List.foldl_cons, List.foldl_nil,
        mergeStep_existing (heuristic, buildSeen heuristic) g ex hk hget, if_pos hcf]
    · intro hcf
      rw [merge_fields]
      rw [if_neg (by simp)]
      rw [List.foldl_cons, List.foldl_nil,
        mergeStep_existing (heuristic, buildSeen heuristic) g ex hk hget,
        if_neg (by intro hlt; exact absurd hcf (by exact not_le.mpr hlt))]
  · intro g
    exact merge_fields_pairwise (merge_fields heuristic [g])
      (merge_fields_pairwise heuristic hd [g]) [g]

/-- Claim C4 witness: a concrete higher-confidence external field with
the same normalized key replaces the heuristic entry and moves to the
end. -/
theorem C4_merge_dedup_witness :
    merge_fields
      [⟨"f000", 0, "Name", .TEXT, ⟨0, 0, 0, 0⟩, ⟨0, 0, 0, 0⟩, false, 1, "", ""⟩]
      [⟨"llm000", 0, " NAME ", .TEXT, ⟨1, 1, 2, 2⟩, ⟨1, 1, 2, 2⟩, true, 2, "", ""⟩] =
    ([⟨"f000", 0, "Name", .TEXT, ⟨0, 0, 0, 0⟩, ⟨0, 0, 0, 0⟩, false, 1, "", ""⟩].erase
        ⟨"f000", 0, "Name", .TEXT, ⟨0, 0, 0, 0⟩, ⟨0, 0, 0, 0⟩, false, 1, "", ""⟩) ++
      [⟨"llm000", 0, " NAME ", .TEXT, ⟨1, 1, 2, 2⟩, ⟨1, 1, 2, 2⟩, true, 2, "", ""⟩] :=
  (((C4_merge_dedup
      [⟨"f000", 0, "Name", .TEXT, ⟨0, 0, 0, 0⟩, ⟨0, 0, 0, 0⟩, false, 1, "", ""⟩]
      (List.pairwise_singleton _ _)).2.1
    ⟨"llm000", 0, " NAME ", .TEXT, ⟨1, 1, 2, 2⟩, ⟨1, 1, 2, 2⟩, true, 2, "", ""⟩
    ⟨"f000", 0, "Name", .TEXT, ⟨0, 0, 0, 0⟩, ⟨0, 0, 0, 0⟩, false, 1, "", ""⟩
    (by decide) (by decide)).1) (by decide)
